import Mathlib

/-!
Verification of the amortization engine of `src/loan_app.py`.

The engine consists of two functions, `calculate_emi` (lines 42-49) and
`generate_schedule` (lines 51-85).  Both are embedded below over exact
rationals (`ℚ`): Python's floating-point arithmetic is modelled by exact
field arithmetic, integer inputs (`years`, `month`, `prepay_start_year`)
by `ℕ`.  The `while balance > 1` loop of `generate_schedule` becomes the
well-founded recursion `scheduleAux`, recursing on the month counter,
which the source bounds by `years * 12 * 3`.
-/

/-- Entry appended to `schedule` each loop iteration of `generate_schedule`
(src/loan_app.py lines 73-79): month, EMI, principal portion, interest
portion, and the balance after the payment (`max(balance, 0)`). -/
structure ScheduleEntry where
  month : ℕ
  emi : ℚ
  principalPaid : ℚ
  interestPaid : ℚ
  balanceAfter : ℚ
deriving DecidableEq, Repr

instance : Inhabited ScheduleEntry := ⟨⟨0, 0, 0, 0, 0⟩⟩

/-- EMI formula, `calculate_emi` of src/loan_app.py lines 42-49.  The
zero-rate branch is straight-line division; otherwise the standard
fixed-installment formula with monthly rate `annual_rate / 100 / 12` and
`years * 12` payments. -/
def calculate_emi (principal annual_rate : ℚ) (years : ℕ) : ℚ :=
  if annual_rate = 0 then principal / ((years * 12 : ℕ) : ℚ)
  else
    let monthly_rate := annual_rate / 100 / 12
    let num_payments := years * 12
    let numerator := monthly_rate * (1 + monthly_rate) ^ num_payments
    let denominator := (1 + monthly_rate) ^ num_payments - 1
    principal * (numerator / denominator)

/-- Condition of src/loan_app.py lines 63-65 under which the yearly
prepayment is added to the month's principal portion: the month is a
year-end month (`month % 12 == 0`), the current year
`((month - 1) // 12) + 1` has reached `prepay_start_year`, and the
prepayment is positive.  (`month` is always at least 1, so the `ℕ`
subtraction agrees with Python's.) -/
def prepayApplies (yearly_prepay : ℚ) (prepay_start_year month : ℕ) : Prop :=
  month % 12 = 0 ∧ prepay_start_year ≤ (month - 1) / 12 + 1 ∧ 0 < yearly_prepay

instance (yearly_prepay : ℚ) (prepay_start_year month : ℕ) :
    Decidable (prepayApplies yearly_prepay prepay_start_year month) := by
  unfold prepayApplies; infer_instance

/-- Principal portion of the month before the overpayment cap:
`principal_paid = emi - interest` (line 60), plus `yearly_prepay` when
the year-end condition of lines 63-66 holds. -/
def uncappedPrincipal (monthly_rate emi yearly_prepay : ℚ)
    (prepay_start_year month : ℕ) (balance : ℚ) : ℚ :=
  if prepayApplies yearly_prepay prepay_start_year month then
    emi - balance * monthly_rate + yearly_prepay
  else
    emi - balance * monthly_rate

/-- Principal portion actually paid, after the cap of lines 68-69:
`if principal_paid > balance: principal_paid = balance`. -/
def principalPortion (monthly_rate emi yearly_prepay : ℚ)
    (prepay_start_year month : ℕ) (balance : ℚ) : ℚ :=
  if balance < uncappedPrincipal monthly_rate emi yearly_prepay prepay_start_year month balance
  then balance
  else uncappedPrincipal monthly_rate emi yearly_prepay prepay_start_year month balance

/-- Main loop of `generate_schedule` (src/loan_app.py lines 58-83).  One
recursive call per month while `balance > 1`; the entry for the current
month records the interest `balance * monthly_rate` and the capped
principal portion; the loop breaks once the incremented month exceeds
`cap` (`years * 12 * 3` at the call site, lines 82-83).  The extra `fuel`
argument only makes the recursion structural: every call keeps
`month + fuel = cap + 1`, so the source's `cap < month + 1` break always
fires exactly when `fuel` would run out, and the `fuel = 0` branch is
unreachable from `generate_schedule`. -/
def scheduleAux (monthly_rate emi yearly_prepay : ℚ) (prepay_start_year cap : ℕ) :
    ℕ → ℕ → ℚ → List ScheduleEntry
  | 0, _, _ => []
  | fuel + 1, month, balance =>
    if 1 < balance then
      (⟨month, emi,
          principalPortion monthly_rate emi yearly_prepay prepay_start_year month balance,
          balance * monthly_rate,
          max (balance -
            principalPortion monthly_rate emi yearly_prepay prepay_start_year month balance)
            0⟩ : ScheduleEntry) ::
        (if cap < month + 1 then []
         else scheduleAux monthly_rate emi yearly_prepay prepay_start_year cap fuel
                (month + 1)
                (balance -
                  principalPortion monthly_rate emi yearly_prepay prepay_start_year month
                    balance))
    else []

/-- Function `generate_schedule` of src/loan_app.py lines 51-85: computes
`emi` from the original terms, then simulates from `balance = principal`,
`month = 1`, with the iteration cap `years * 12 * 3`.  The Python function
wraps the list in a `pandas.DataFrame`; the embedding returns the list of
rows. -/
def generate_schedule (principal annual_rate : ℚ) (years : ℕ)
    (yearly_prepay : ℚ) (prepay_start_year : ℕ) : List ScheduleEntry :=
  scheduleAux (annual_rate / 100 / 12) (calculate_emi principal annual_rate years)
    yearly_prepay prepay_start_year (years * 12 * 3) (years * 12 * 3) 1 principal

/-- Sum of the `interestPaid` column of a schedule. -/
def totalInterest (l : List ScheduleEntry) : ℚ :=
  (l.map ScheduleEntry.interestPaid).sum

/-- Sum of the `principalPaid` column of a schedule. -/
def totalPrincipal (l : List ScheduleEntry) : ℚ :=
  (l.map ScheduleEntry.principalPaid).sum

/-! ## Elementary facts about the per-month step -/

lemma uncappedPrincipal_eq (monthly_rate emi yearly_prepay : ℚ)
    (prepay_start_year month : ℕ) (balance : ℚ) :
    uncappedPrincipal monthly_rate emi yearly_prepay prepay_start_year month balance =
      emi - balance * monthly_rate +
        (if prepayApplies yearly_prepay prepay_start_year month then yearly_prepay else 0) := by
  unfold uncappedPrincipal
  split_ifs <;> ring

lemma principalPortion_le (monthly_rate emi yearly_prepay : ℚ)
    (prepay_start_year month : ℕ) (balance : ℚ) :
    principalPortion monthly_rate emi yearly_prepay prepay_start_year month balance ≤
      balance := by
  unfold principalPortion
  split_ifs with h
  · exact le_refl _
  · exact le_of_not_lt h

lemma sub_principalPortion_nonneg (monthly_rate emi yearly_prepay : ℚ)
    (prepay_start_year month : ℕ) (balance : ℚ) :
    0 ≤ balance -
      principalPortion monthly_rate emi yearly_prepay prepay_start_year month balance := by
  have := principalPortion_le monthly_rate emi yearly_prepay prepay_start_year month balance
  linarith

lemma max_sub_principalPortion (monthly_rate emi yearly_prepay : ℚ)
    (prepay_start_year month : ℕ) (balance : ℚ) :
    max (balance -
        principalPortion monthly_rate emi yearly_prepay prepay_start_year month balance) 0 =
      balance -
        principalPortion monthly_rate emi yearly_prepay prepay_start_year month balance :=
  max_eq_left
    (sub_principalPortion_nonneg monthly_rate emi yearly_prepay prepay_start_year month balance)

lemma principalPortion_nonneg (monthly_rate emi yearly_prepay : ℚ)
    (prepay_start_year month : ℕ) (balance : ℚ) (hyp : 0 ≤ yearly_prepay)
    (hb : 0 < balance) (hemi : balance * monthly_rate ≤ emi) :
    0 ≤ principalPortion monthly_rate emi yearly_prepay prepay_start_year month balance := by
  unfold principalPortion uncappedPrincipal
  split_ifs <;> linarith

lemma principalPortion_pos (monthly_rate emi yearly_prepay : ℚ)
    (prepay_start_year month : ℕ) (balance : ℚ) (hyp : 0 ≤ yearly_prepay)
    (hb : 0 < balance) (hemi : balance * monthly_rate < emi) :
    0 < principalPortion monthly_rate emi yearly_prepay prepay_start_year month balance := by
  unfold principalPortion uncappedPrincipal
  split_ifs <;> linarith

lemma principalPortion_eq_uncapped (monthly_rate emi yearly_prepay : ℚ)
    (prepay_start_year month : ℕ) (balance : ℚ)
    (h : 0 < balance -
      principalPortion monthly_rate emi yearly_prepay prepay_start_year month balance) :
    principalPortion monthly_rate emi yearly_prepay prepay_start_year month balance =
      uncappedPrincipal monthly_rate emi yearly_prepay prepay_start_year month balance := by
  unfold principalPortion at h ⊢
  split_ifs at h ⊢ with hc
  · linarith
  · rfl

lemma totalInterest_nil : totalInterest [] = 0 := rfl

lemma totalInterest_cons (e : ScheduleEntry) (l : List ScheduleEntry) :
    totalInterest (e :: l) = e.interestPaid + totalInterest l := by
  simp [totalInterest]

lemma totalPrincipal_nil : totalPrincipal [] = 0 := rfl

lemma totalPrincipal_cons (e : ScheduleEntry) (l : List ScheduleEntry) :
    totalPrincipal (e :: l) = e.principalPaid + totalPrincipal l := by
  simp [totalPrincipal]

/-! ## Facts about the EMI formula -/

/-- Strict geometric-sum bound used for claim C6:
for positive `r`, `(1+r)^n - 1 < n * r * (1+r)^n`. -/
lemma pow_sub_one_lt_mul (r : ℚ) (hr : 0 < r) :
    ∀ n : ℕ, 1 ≤ n → (1 + r) ^ n - 1 < (n : ℚ) * r * (1 + r) ^ n := by
  intro n
  induction n with
  | zero => intro h; omega
  | succ m ih =>
    intro _
    have hx : (0 : ℚ) < 1 + r := by linarith
    rcases Nat.eq_zero_or_pos m with hm | hm
    · subst hm
      push_cast
      nlinarith [mul_pos hr hr]
    · have ihm := ih hm
      have hpow : (0 : ℚ) < (1 + r) ^ m := pow_pos hx m
      have hone : (1 : ℚ) ≤ (1 + r) ^ (m + 1) := by
        calc (1 : ℚ) = 1 ^ (m + 1) := (one_pow _).symm
        _ ≤ (1 + r) ^ (m + 1) := pow_le_pow_left₀ (by norm_num) (by linarith) _
      have h2 : (1 + r) * ((1 + r) ^ m - 1) < (1 + r) * ((m : ℚ) * r * (1 + r) ^ m) :=
        mul_lt_mul_of_pos_left ihm hx
      have h3 : r * 1 ≤ r * (1 + r) ^ (m + 1) :=
        mul_le_mul_of_nonneg_left hone (le_of_lt hr)
      have hps : (1 + r) ^ (m + 1) = (1 + r) ^ m * (1 + r) := pow_succ _ _
      have hgoal : (1 + r) ^ (m + 1) - 1 < ((m : ℚ) + 1) * r * (1 + r) ^ (m + 1) := by
        rw [hps] at h3 ⊢
        linarith [h2, h3]
      push_cast
      exact hgoal

/-- The monthly interest on the full principal is strictly below the EMI:
`principal * (rate/100/12) < calculate_emi principal rate years` for
positive principal, non-negative rate and at least one year of tenure.
This is what keeps the principal portion of every month positive. -/
lemma emi_gt_interest (P r : ℚ) (Y : ℕ) (hP : 0 < P) (hr : 0 ≤ r) (hY : 1 ≤ Y) :
    P * (r / 100 / 12) < calculate_emi P r Y := by
  rcases eq_or_lt_of_le hr with hr0 | hrpos
  · subst hr0
    simp only [calculate_emi, if_pos rfl]
    have h12 : (0 : ℚ) < ((Y * 12 : ℕ) : ℚ) := by
      have : 0 < Y * 12 := by omega
      exact_mod_cast this
    simp only [zero_div, mul_zero]
    exact div_pos hP h12
  · have hne : r ≠ 0 := ne_of_gt hrpos
    simp only [calculate_emi, if_neg hne]
    have hmr : (0 : ℚ) < r / 100 / 12 := by positivity
    have hx : (1 : ℚ) < 1 + r / 100 / 12 := by linarith
    have hn : Y * 12 ≠ 0 := by omega
    have hD : (0 : ℚ) < (1 + r / 100 / 12) ^ (Y * 12) - 1 := by
      have := one_lt_pow₀ hx hn
      linarith
    have hxp : (0 : ℚ) < (1 + r / 100 / 12) ^ (Y * 12) := pow_pos (by linarith) _
    have hfrac : r / 100 / 12 <
        r / 100 / 12 * (1 + r / 100 / 12) ^ (Y * 12) /
          ((1 + r / 100 / 12) ^ (Y * 12) - 1) := by
      rw [lt_div_iff₀ hD]
      have hstep : (1 + r / 100 / 12) ^ (Y * 12) - 1 < (1 + r / 100 / 12) ^ (Y * 12) := by
        linarith
      exact mul_lt_mul_of_pos_left hstep hmr
    exact mul_lt_mul_of_pos_left hfrac hP

/-! ## Inductive facts about the simulation loop -/

lemma scheduleAux_eq_nil (mr emi yp : ℚ) (psy cap fuel month : ℕ) (b : ℚ)
    (h : ¬ 1 < b) : scheduleAux mr emi yp psy cap fuel month b = [] := by
  cases fuel <;> simp [scheduleAux, h]

lemma scheduleAux_ne_nil (mr emi yp : ℚ) (psy cap fuel month : ℕ) (b : ℚ)
    (h : scheduleAux mr emi yp psy cap fuel month b ≠ []) : 1 < b := by
  by_contra hb
  exact h (scheduleAux_eq_nil mr emi yp psy cap fuel month b hb)

lemma scheduleAux_length_le (mr emi yp : ℚ) (psy cap : ℕ) :
    ∀ (fuel month : ℕ) (b : ℚ),
      (scheduleAux mr emi yp psy cap fuel month b).length ≤ fuel := by
  intro fuel
  induction fuel with
  | zero => intro month b; simp [scheduleAux]
  | succ f ih =>
    intro month b
    simp only [scheduleAux]
    split_ifs with h1 h2
    · simp
    · simp only [List.length_cons]
      exact Nat.succ_le_succ (ih (month + 1) _)
    · simp

lemma scheduleAux_totalInterest_nonneg (mr emi yp : ℚ) (psy cap : ℕ) (hmr : 0 ≤ mr) :
    ∀ (fuel month : ℕ) (b : ℚ),
      0 ≤ totalInterest (scheduleAux mr emi yp psy cap fuel month b) := by
  intro fuel
  induction fuel with
  | zero => intro month b; simp [scheduleAux, totalInterest_nil]
  | succ f ih =>
    intro month b
    simp only [scheduleAux]
    split_ifs with h1 h2
    · simp only [totalInterest_cons, totalInterest_nil]
      have : (0 : ℚ) ≤ b * mr := mul_nonneg (by linarith) hmr
      simpa using this
    · simp only [totalInterest_cons]
      have hint : (0 : ℚ) ≤ b * mr := mul_nonneg (by linarith) hmr
      have := ih (month + 1)
        (b - principalPortion mr emi yp psy month b)
      linarith
    · simp [totalInterest_nil]

/-- Telescoping sum: the principal paid over the whole simulation equals
the starting balance minus the balance left in the last recorded entry
(or minus the full starting balance when no entry is recorded). -/
lemma scheduleAux_totalPrincipal (mr emi yp : ℚ) (psy cap : ℕ) :
    ∀ (fuel month : ℕ) (b : ℚ),
      totalPrincipal (scheduleAux mr emi yp psy cap fuel month b) =
        b - (((scheduleAux mr emi yp psy cap fuel month b).getLast?).map
              ScheduleEntry.balanceAfter).getD b := by
  intro fuel
  induction fuel with
  | zero => intro month b; simp [scheduleAux, totalPrincipal_nil]
  | succ f ih =>
    intro month b
    by_cases h1 : 1 < b
    · simp only [scheduleAux, if_pos h1]
      by_cases h2 : cap < month + 1
      · simp only [if_pos h2, totalPrincipal_cons, totalPrincipal_nil,
          List.getLast?_singleton, Option.map_some', Option.getD_some]
        rw [max_sub_principalPortion]
        ring
      · simp only [if_neg h2]
        by_cases hr : scheduleAux mr emi yp psy cap f (month + 1)
            (b - principalPortion mr emi yp psy month b) = []
        · rw [hr]
          simp only [totalPrincipal_cons, totalPrincipal_nil,
            List.getLast?_singleton, Option.map_some', Option.getD_some]
          rw [max_sub_principalPortion]
          ring
        · obtain ⟨x, xs, hxs⟩ := List.exists_cons_of_ne_nil hr
          have ihr := ih (month + 1) (b - principalPortion mr emi yp psy month b)
          rw [hxs] at ihr ⊢
          cases hgl : (x :: xs).getLast? with
          | none =>
            rw [List.getLast?_eq_none_iff] at hgl
            exact absurd hgl (List.cons_ne_nil x xs)
          | some e2 =>
            rw [hgl] at ihr
            simp only [Option.map_some', Option.getD_some] at ihr
            simp only [totalPrincipal_cons, List.getLast?_cons_cons, hgl,
              Option.map_some', Option.getD_some]
            rw [totalPrincipal_cons] at ihr
            linarith [ihr]
    · rw [scheduleAux_eq_nil mr emi yp psy cap (f + 1) month b h1]
      simp [totalPrincipal_nil]

/-- Every entry other than the last one satisfies
`principalPaid + interestPaid = emi`, provided the prepayment was not
applied that month: a non-final entry is never capped, so its principal
portion is exactly `emi - interest` (+ the prepayment when applied). -/
lemma scheduleAux_dropLast_sum (mr emi yp : ℚ) (psy cap : ℕ) :
    ∀ (fuel month : ℕ) (b : ℚ),
      ∀ e ∈ (scheduleAux mr emi yp psy cap fuel month b).dropLast,
        ¬ prepayApplies yp psy e.month →
          e.principalPaid + e.interestPaid = e.emi := by
  intro fuel
  induction fuel with
  | zero => intro month b; simp [scheduleAux]
  | succ f ih =>
    intro month b
    by_cases h1 : 1 < b
    · simp only [scheduleAux, if_pos h1]
      by_cases h2 : cap < month + 1
      · simp [if_pos h2]
      · simp only [if_neg h2]
        by_cases hr : scheduleAux mr emi yp psy cap f (month + 1)
            (b - principalPortion mr emi yp psy month b) = []
        · rw [hr]; simp
        · obtain ⟨x, xs, hxs⟩ := List.exists_cons_of_ne_nil hr
          rw [hxs]
          rw [List.dropLast_cons₂]
          intro e hmem hcond
          rcases List.mem_cons.mp hmem with he0 | hrest
          · subst he0
            have hb2 : 1 <
                b - principalPortion mr emi yp psy month b := by
              apply scheduleAux_ne_nil mr emi yp psy cap f (month + 1)
              rw [hxs]
              exact List.cons_ne_nil x xs
            have hpp := principalPortion_eq_uncapped mr emi yp psy month b
              (by linarith)
            simp only [] at hcond ⊢
            rw [hpp, uncappedPrincipal_eq, if_neg hcond]
            ring
          · have := ih (month + 1) (b - principalPortion mr emi yp psy month b)
            rw [hxs] at this
            exact this e hrest hcond
    · rw [scheduleAux_eq_nil mr emi yp psy cap (f + 1) month b h1]
      simp

/-- The recorded balances never increase, as long as the EMI covers the
monthly interest on the running balance and the prepayment is
non-negative. -/
lemma scheduleAux_balance_antitone (mr emi yp : ℚ) (psy cap : ℕ)
    (hmr : 0 ≤ mr) (hyp : 0 ≤ yp) :
    ∀ (fuel month : ℕ) (b : ℚ), b * mr ≤ emi →
      List.Chain' (fun e1 e2 => e2.balanceAfter ≤ e1.balanceAfter)
          (scheduleAux mr emi yp psy cap fuel month b) ∧
        ∀ e ∈ (scheduleAux mr emi yp psy cap fuel month b).head?,
          e.balanceAfter ≤ b := by
  intro fuel
  induction fuel with
  | zero => intro month b hb; simp [scheduleAux]
  | succ f ih =>
    intro month b hb
    by_cases h1 : 1 < b
    · have hpp0 : 0 ≤ principalPortion mr emi yp psy month b :=
        principalPortion_nonneg mr emi yp psy month b hyp (by linarith) hb
      have hple : principalPortion mr emi yp psy month b ≤ b :=
        principalPortion_le mr emi yp psy month b
      have hb2 : (b - principalPortion mr emi yp psy month b) * mr ≤ emi := by
        calc (b - principalPortion mr emi yp psy month b) * mr ≤ b * mr :=
              mul_le_mul_of_nonneg_right (by linarith) hmr
        _ ≤ emi := hb
      simp only [scheduleAux, if_pos h1]
      by_cases h2 : cap < month + 1
      · simp only [if_pos h2]
        constructor
        · simp
        · intro e he
          simp only [List.head?_cons, Option.mem_def, Option.some.injEq] at he
          subst he
          dsimp only
          rw [max_sub_principalPortion]
          linarith
      · simp only [if_neg h2]
        obtain ⟨ch, hd⟩ := ih (month + 1) (b - principalPortion mr emi yp psy month b) hb2
        constructor
        · rw [List.chain'_cons']
          refine ⟨?_, ch⟩
          intro e he
          have hhd := hd e he
          dsimp only
          rw [max_sub_principalPortion]
          linarith
        · intro e he
          simp only [List.head?_cons, Option.mem_def, Option.some.injEq] at he
          subst he
          dsimp only
          rw [max_sub_principalPortion]
          linarith
    · rw [scheduleAux_eq_nil mr emi yp psy cap (f + 1) month b h1]
      simp

/-- Every recorded entry has a strictly positive principal portion and a
non-negative interest portion, as long as the EMI strictly exceeds the
monthly interest on the running balance. -/
lemma scheduleAux_entry_pos (mr emi yp : ℚ) (psy cap : ℕ)
    (hmr : 0 ≤ mr) (hyp : 0 ≤ yp) :
    ∀ (fuel month : ℕ) (b : ℚ), b * mr < emi →
      ∀ e ∈ scheduleAux mr emi yp psy cap fuel month b,
        0 < e.principalPaid ∧ 0 ≤ e.interestPaid := by
  intro fuel
  induction fuel with
  | zero => intro month b hb; simp [scheduleAux]
  | succ f ih =>
    intro month b hb
    by_cases h1 : 1 < b
    · have hpp : 0 < principalPortion mr emi yp psy month b :=
        principalPortion_pos mr emi yp psy month b hyp (by linarith) hb
      have hint : (0 : ℚ) ≤ b * mr := mul_nonneg (by linarith) hmr
      have hb2 : (b - principalPortion mr emi yp psy month b) * mr < emi := by
        calc (b - principalPortion mr emi yp psy month b) * mr ≤ b * mr :=
              mul_le_mul_of_nonneg_right (by linarith) hmr
        _ < emi := hb
      simp only [scheduleAux, if_pos h1]
      intro e he
      by_cases h2 : cap < month + 1
      · rw [if_pos h2] at he
        simp only [List.mem_singleton] at he
        subst he
        exact ⟨hpp, hint⟩
      · rw [if_neg h2] at he
        rcases List.mem_cons.mp he with he0 | hrest
        · subst he0
          exact ⟨hpp, hint⟩
        · exact ih (month + 1) (b - principalPortion mr emi yp psy month b) hb2 e hrest
    · rw [scheduleAux_eq_nil mr emi yp psy cap (f + 1) month b h1]
      intro e he
      simp at he

/-- When the last recorded balance is still above the epsilon `1`, the
loop must have stopped because of the iteration cap, so the schedule has
consumed its entire month budget; a schedule that stopped on its own has
a final balance at most `1`. -/
lemma scheduleAux_getLast (mr emi yp : ℚ) (psy cap : ℕ) :
    ∀ (fuel month : ℕ) (b : ℚ), month + fuel = cap + 1 →
      ∀ e, (scheduleAux mr emi yp psy cap fuel month b).getLast? = some e →
        e.balanceAfter ≤ 1 ∨
          ((scheduleAux mr emi yp psy cap fuel month b).length = fuel ∧
            1 < e.balanceAfter) := by
  intro fuel
  induction fuel with
  | zero => intro month b hinv e he; simp [scheduleAux] at he
  | succ f ih =>
    intro month b hinv e he
    by_cases h1 : 1 < b
    · simp only [scheduleAux, if_pos h1] at he ⊢
      by_cases h2 : cap < month + 1
      · rw [if_pos h2] at he ⊢
        have hf : f = 0 := by omega
        simp only [List.getLast?_singleton, Option.some.injEq] at he
        subst he
        subst hf
        rcases le_or_lt
          (ScheduleEntry.balanceAfter
            ⟨month, emi, principalPortion mr emi yp psy month b, b * mr,
              max (b - principalPortion mr emi yp psy month b) 0⟩) 1 with hA | hA
        · exact Or.inl hA
        · exact Or.inr ⟨by simp, hA⟩
      · rw [if_neg h2] at he ⊢
        have hinv2 : (month + 1) + f = cap + 1 := by omega
        by_cases hr : scheduleAux mr emi yp psy cap f (month + 1)
            (b - principalPortion mr emi yp psy month b) = []
        · rw [hr] at he ⊢
          simp only [List.getLast?_singleton, Option.some.injEq] at he
          subst he
          have hb2 : ¬ 1 < b - principalPortion mr emi yp psy month b := by
            intro hcon
            cases f with
            | zero => omega
            | succ f2 => simp [scheduleAux, if_pos hcon] at hr
          left
          dsimp only
          rw [max_sub_principalPortion]
          linarith [not_lt.mp hb2]
        · obtain ⟨x, xs, hxs⟩ := List.exists_cons_of_ne_nil hr
          rw [hxs, List.getLast?_cons_cons] at he
          have hrec := ih (month + 1) (b - principalPortion mr emi yp psy month b)
            hinv2 e (by rw [hxs]; exact he)
          rcases hrec with hle | ⟨hlen, hgt⟩
          · exact Or.inl hle
          · refine Or.inr ⟨?_, hgt⟩
            rw [hxs] at hlen ⊢
            simp only [List.length_cons] at hlen ⊢
            omega
    · rw [scheduleAux_eq_nil mr emi yp psy cap (f + 1) month b h1] at he
      simp at he

/-- One-step coupling for the prepayment comparison: starting from a
smaller balance and paying a larger prepayment leaves a smaller balance
after the month, for any non-negative monthly rate. -/
lemma principalPortion_step_mono (mr emi : ℚ) (psy m : ℕ) (yp1 yp2 b1 b2 : ℚ)
    (hmr : 0 ≤ mr) (hyp2 : 0 ≤ yp2) (h12 : yp2 ≤ yp1) (hb : b1 ≤ b2) :
    b1 - principalPortion mr emi yp1 psy m b1 ≤
      b2 - principalPortion mr emi yp2 psy m b2 := by
  have hmul := mul_le_mul_of_nonneg_right hb hmr
  unfold principalPortion
  rw [uncappedPrincipal_eq mr emi yp1 psy m b1, uncappedPrincipal_eq mr emi yp2 psy m b2]
  set q1 := (if prepayApplies yp1 psy m then yp1 else 0) with hq1
  set q2 := (if prepayApplies yp2 psy m then yp2 else 0) with hq2
  have hq2n : 0 ≤ q2 := by
    rw [hq2]; split_ifs <;> linarith
  have hq12 : q2 ≤ q1 := by
    rw [hq1, hq2]
    by_cases hA1 : prepayApplies yp1 psy m
    · by_cases hA2 : prepayApplies yp2 psy m
      · simp only [if_pos hA1, if_pos hA2]; exact h12
      · simp only [if_pos hA1, if_neg hA2]; linarith
    · by_cases hA2 : prepayApplies yp2 psy m
      · exact absurd ⟨hA2.1, hA2.2.1, lt_of_lt_of_le hA2.2.2 h12⟩ hA1
      · simp [if_neg hA1, if_neg hA2]
  split_ifs <;> linarith

/-- Coupled comparison of two simulations that differ only in the yearly
prepayment: the run with the larger prepayment is never longer and never
accumulates more interest. -/
lemma scheduleAux_prepay_le (mr emi : ℚ) (psy cap : ℕ) (yp1 yp2 : ℚ)
    (hmr : 0 ≤ mr) (hyp2 : 0 ≤ yp2) (h12 : yp2 ≤ yp1) :
    ∀ (fuel month : ℕ) (b1 b2 : ℚ), b1 ≤ b2 →
      (scheduleAux mr emi yp1 psy cap fuel month b1).length ≤
        (scheduleAux mr emi yp2 psy cap fuel month b2).length ∧
      totalInterest (scheduleAux mr emi yp1 psy cap fuel month b1) ≤
        totalInterest (scheduleAux mr emi yp2 psy cap fuel month b2) := by
  intro fuel
  induction fuel with
  | zero => intro month b1 b2 hb; simp [scheduleAux, totalInterest_nil]
  | succ f ih =>
    intro month b1 b2 hb
    by_cases h1 : 1 < b1
    · have h2b : 1 < b2 := lt_of_lt_of_le h1 hb
      have hstep := principalPortion_step_mono mr emi psy month yp1 yp2 b1 b2
        hmr hyp2 h12 hb
      have hint : b1 * mr ≤ b2 * mr := mul_le_mul_of_nonneg_right hb hmr
      simp only [scheduleAux, if_pos h1, if_pos h2b]
      by_cases h2 : cap < month + 1
      · simp only [if_pos h2]
        constructor
        · simp
        · simp only [totalInterest_cons, totalInterest_nil]
          linarith
      · simp only [if_neg h2]
        obtain ⟨ihlen, ihint⟩ := ih (month + 1)
          (b1 - principalPortion mr emi yp1 psy month b1)
          (b2 - principalPortion mr emi yp2 psy month b2) hstep
        constructor
        · simp only [List.length_cons]
          exact Nat.succ_le_succ ihlen
        · simp only [totalInterest_cons]
          linarith
    · rw [scheduleAux_eq_nil mr emi yp1 psy cap (f + 1) month b1 h1]
      constructor
      · simp
      · rw [totalInterest_nil]
        exact scheduleAux_totalInterest_nonneg mr emi yp2 psy cap hmr (f + 1) month b2

/-! ## Claim theorems -/

/-- Claim C1 (amended): in every schedule returned by `generate_schedule`,
every entry except the final one whose month is not a year-end month with
the prepayment applied satisfies `principalPaid + interestPaid = emi`.
(The claim as frozen exempts only the final capped entry; a non-final
year-end entry with a positive prepayment violates it, see
`claim1_counterexample`.) -/
theorem claim1_entry_sum (P r : ℚ) (Y : ℕ) (yp : ℚ) (psy : ℕ) :
    ∀ e ∈ (generate_schedule P r Y yp psy).dropLast,
      ¬ prepayApplies yp psy e.month →
        e.principalPaid + e.interestPaid = e.emi :=
  scheduleAux_dropLast_sum _ _ _ _ _ _ 1 P

/-- Claim C2: for positive principal, non-negative rate, tenure of at
least one year and a non-negative prepayment, the `balanceAfter` column
of the schedule is monotonically non-increasing:
`entry[i+1].balanceAfter <= entry[i].balanceAfter`. -/
theorem claim2_balance_monotone (P r : ℚ) (Y : ℕ) (yp : ℚ) (psy : ℕ)
    (hP : 0 < P) (hr : 0 ≤ r) (hY : 1 ≤ Y) (hyp : 0 ≤ yp) :
    ∀ (i : ℕ) (h : i + 1 < (generate_schedule P r Y yp psy).length),
      ((generate_schedule P r Y yp psy).get ⟨i + 1, h⟩).balanceAfter ≤
        ((generate_schedule P r Y yp psy).get
          ⟨i, Nat.lt_of_succ_lt h⟩).balanceAfter := by
  intro i h
  have hemi : P * (r / 100 / 12) ≤ calculate_emi P r Y :=
    le_of_lt (emi_gt_interest P r Y hP hr hY)
  have hmr : (0 : ℚ) ≤ r / 100 / 12 := by positivity
  obtain ⟨ch, _⟩ := scheduleAux_balance_antitone (r / 100 / 12)
    (calculate_emi P r Y) yp psy (Y * 12 * 3) hmr hyp (Y * 12 * 3) 1 P hemi
  have hlen : i < (generate_schedule P r Y yp psy).length - 1 := by omega
  exact List.chain'_iff_get.mp ch i hlen

/-- Claim C3 (amended): the sum of `principalPaid` over the schedule
equals the principal minus the final entry's `balanceAfter` (minus the
principal itself, i.e. the sum is `0`, when the schedule is empty),
exactly.  The frozen claim's relative `1e-6` conservation fails when the
loop leaves a residual balance of up to one currency unit, see
`claim3_counterexample`. -/
theorem claim3_conservation_exact (P r : ℚ) (Y : ℕ) (yp : ℚ) (psy : ℕ) :
    totalPrincipal (generate_schedule P r Y yp psy) =
      P - (((generate_schedule P r Y yp psy).getLast?).map
            ScheduleEntry.balanceAfter).getD P :=
  scheduleAux_totalPrincipal _ _ _ _ _ _ 1 P

/-- Claim C4: `generate_schedule` always terminates (it is a total
function of this embedding) and, for any tenure of at least one year,
returns at most `tenureYears * 12 * 3` entries. -/
theorem claim4_schedule_bounded (P r : ℚ) (Y : ℕ) (yp : ℚ) (psy : ℕ)
    (hY : 1 ≤ Y) :
    (generate_schedule P r Y yp psy).length ≤ Y * 12 * 3 :=
  scheduleAux_length_le _ _ _ _ _ (Y * 12 * 3) 1 P

/-- Claim C5: for a fixed loan with non-negative rate, a positive yearly
prepayment (any start year) yields at most the total interest and at most
the schedule length of the same loan without prepayment. -/
theorem claim5_prepay_reduces (P r : ℚ) (Y : ℕ) (yp : ℚ) (psy : ℕ)
    (hr : 0 ≤ r) (hyp : 0 < yp) :
    totalInterest (generate_schedule P r Y yp psy) ≤
        totalInterest (generate_schedule P r Y 0 psy) ∧
      (generate_schedule P r Y yp psy).length ≤
        (generate_schedule P r Y 0 psy).length := by
  have hmr : (0 : ℚ) ≤ r / 100 / 12 := by positivity
  obtain ⟨hlen, hint⟩ := scheduleAux_prepay_le (r / 100 / 12)
    (calculate_emi P r Y) psy (Y * 12 * 3) yp 0 hmr le_rfl (le_of_lt hyp)
    (Y * 12 * 3) 1 P P le_rfl
  exact ⟨hint, hlen⟩

/-- Claim C6: for positive principal, rate in `(0, 30]` and tenure in
`[1, 40]`, the EMI is strictly positive and the total of all scheduled
payments `emi * tenure * 12` strictly exceeds the principal. -/
theorem claim6_emi_positive (P r : ℚ) (Y : ℕ) (hP : 0 < P) (hr : 0 < r)
    (hr30 : r ≤ 30) (hY : 1 ≤ Y) (hY40 : Y ≤ 40) :
    0 < calculate_emi P r Y ∧
      P < calculate_emi P r Y * ((Y : ℚ) * 12) := by
  have hne : r ≠ 0 := ne_of_gt hr
  have hmr : (0 : ℚ) < r / 100 / 12 := by positivity
  have hx1 : (1 : ℚ) < 1 + r / 100 / 12 := by linarith
  have hn0 : Y * 12 ≠ 0 := by omega
  have hD : (0 : ℚ) < (1 + r / 100 / 12) ^ (Y * 12) - 1 := by
    have := one_lt_pow₀ hx1 hn0
    linarith
  have hxp : (0 : ℚ) < (1 + r / 100 / 12) ^ (Y * 12) := pow_pos (by linarith) _
  constructor
  · simp only [calculate_emi, if_neg hne]
    exact mul_pos hP (div_pos (mul_pos hmr hxp) hD)
  · simp only [calculate_emi, if_neg hne]
    have key : (1 + r / 100 / 12) ^ (Y * 12) - 1 <
        ((Y * 12 : ℕ) : ℚ) * (r / 100 / 12) * (1 + r / 100 / 12) ^ (Y * 12) :=
      pow_sub_one_lt_mul (r / 100 / 12) hmr (Y * 12) (by omega)
    have hcast : ((Y * 12 : ℕ) : ℚ) = (Y : ℚ) * 12 := by push_cast; ring
    rw [hcast] at key
    rw [show P * (r / 100 / 12 * (1 + r / 100 / 12) ^ (Y * 12) /
          ((1 + r / 100 / 12) ^ (Y * 12) - 1)) * ((Y : ℚ) * 12) =
        P * ((Y : ℚ) * 12 * (r / 100 / 12) * (1 + r / 100 / 12) ^ (Y * 12)) /
          ((1 + r / 100 / 12) ^ (Y * 12) - 1) from by ring]
    rw [lt_div_iff₀ hD]
    exact mul_lt_mul_of_pos_left key hP

/-- Claim C7: with a zero annual rate, the EMI is the straight-line
division `principal / (tenureYears * 12)`, exactly. -/
theorem claim7_zero_rate_emi (P : ℚ) (Y : ℕ) (hP : 0 < P) (hY : 1 ≤ Y) :
    calculate_emi P 0 Y = P / ((Y : ℚ) * 12) := by
  simp only [calculate_emi, if_pos rfl]
  push_cast
  ring_nf

/-- Claim C8: `generate_schedule` always returns a schedule (no
exception; the embedding is a total function), and whenever the final
recorded balance has not been driven to (approximately) zero — the
epsilon is one currency unit — the schedule was truncated at exactly the
`tenureYears * 12 * 3` iteration cap, with a strictly positive final
`balanceAfter` by which the caller can detect the non-convergence. -/
theorem claim8_nonconvergence_detectable (P r : ℚ) (Y : ℕ) (yp : ℚ) (psy : ℕ) :
    ∀ e, (generate_schedule P r Y yp psy).getLast? = some e →
      e.balanceAfter ≤ 1 ∨
        ((generate_schedule P r Y yp psy).length = Y * 12 * 3 ∧
          1 < e.balanceAfter) :=
  scheduleAux_getLast _ _ _ _ _ (Y * 12 * 3) 1 P (by omega)

/-- Claim C9: for positive principal, non-negative rate, tenure of at
least one year and a non-negative prepayment, every schedule entry has a
strictly positive `principalPaid` and a non-negative `interestPaid`. -/
theorem claim9_entries_positive (P r : ℚ) (Y : ℕ) (yp : ℚ) (psy : ℕ)
    (hP : 0 < P) (hr : 0 ≤ r) (hY : 1 ≤ Y) (hyp : 0 ≤ yp) :
    ∀ e ∈ generate_schedule P r Y yp psy,
      0 < e.principalPaid ∧ 0 ≤ e.interestPaid := by
  have hmr : (0 : ℚ) ≤ r / 100 / 12 := by positivity
  exact scheduleAux_entry_pos (r / 100 / 12) (calculate_emi P r Y) yp psy
    (Y * 12 * 3) hmr hyp (Y * 12 * 3) 1 P (emi_gt_interest P r Y hP hr hY)

/-- Claim C10: when the principal is at most `1` (the epsilon used by the
`while balance > 1` loop), the returned schedule is empty. -/
theorem claim10_small_principal_empty (P r : ℚ) (Y : ℕ) (yp : ℚ) (psy : ℕ)
    (hP : P ≤ 1) : generate_schedule P r Y yp psy = [] :=
  scheduleAux_eq_nil _ _ _ _ _ _ 1 P (not_lt.mpr hP)

/-! ## Concrete witnesses and counterexamples

The `Rat` arithmetic operations are `irreducible` in Batteries; they are
made semireducible locally so that `decide` can evaluate the engine on
concrete loans. -/

section

attribute [local semireducible] Rat.mul Rat.add Rat.sub Rat.inv

/-- Counterexample to claim C1 as frozen: in the schedule for principal
`20`, rate `0`, tenure `2` with yearly prepayment `3` from year `1`, the
entry at index `11` (month 12, a year-end month) is not the final entry —
the schedule has 20 entries — yet its `principalPaid + interestPaid`
exceeds `emi` by the prepayment. -/
theorem claim1_counterexample :
    11 + 1 < (generate_schedule 20 0 2 3 1).length ∧
      ¬ (((generate_schedule 20 0 2 3 1).getD 11 default).principalPaid +
            ((generate_schedule 20 0 2 3 1).getD 11 default).interestPaid =
          ((generate_schedule 20 0 2 3 1).getD 11 default).emi) := by
  decide

/-- Witness for the amended claim C1 at a concrete loan: the first entry
of the schedule for principal `2`, rate `0`, tenure `1` without
prepayment is not the final entry, is not a prepayment month, and its
principal plus interest equals the EMI. -/
theorem claim1_entry_sum_witness :
    ((⟨1, 1/6, 1/6, 0, 11/6⟩ : ScheduleEntry) ∈
        (generate_schedule 2 0 1 0 1).dropLast ∧
      ¬ prepayApplies 0 1 (⟨1, 1/6, 1/6, 0, 11/6⟩ : ScheduleEntry).month) ∧
      (⟨1, 1/6, 1/6, 0, 11/6⟩ : ScheduleEntry).principalPaid +
          (⟨1, 1/6, 1/6, 0, 11/6⟩ : ScheduleEntry).interestPaid =
        (⟨1, 1/6, 1/6, 0, 11/6⟩ : ScheduleEntry).emi :=
  ⟨⟨by decide, by decide⟩,
    claim1_entry_sum 2 0 1 0 1 ⟨1, 1/6, 1/6, 0, 11/6⟩ (by decide) (by decide)⟩

/-- Witness for claim C2 at a concrete loan: in the schedule for
principal `2`, rate `0`, tenure `1`, the balance after month 2 is at most
the balance after month 1. -/
theorem claim2_balance_monotone_witness :
    ((generate_schedule 2 0 1 0 1).get ⟨1, by decide⟩).balanceAfter ≤
      ((generate_schedule 2 0 1 0 1).get ⟨0, by decide⟩).balanceAfter :=
  claim2_balance_monotone 2 0 1 0 1 (by decide) (by decide) (by decide)
    (by decide) 0 (by decide)

/-- Counterexample to claim C3 as frozen: for principal `1.5`, rate `0`,
tenure `1`, the loop stops with a residual balance of `1`, so the sum of
`principalPaid` is `0.5` and misses the principal by far more than the
relative tolerance `1e-6`. -/
theorem claim3_counterexample :
    totalPrincipal (generate_schedule (3/2) 0 1 0 1) = 1/2 ∧
      ¬ (|totalPrincipal (generate_schedule (3/2) 0 1 0 1) - 3/2| ≤
          3/2 * (1/1000000)) := by
  decide

/-- Witness for claim C4 at a concrete loan: the schedule for principal
`2`, rate `0`, tenure `1` has at most `1 * 12 * 3` entries. -/
theorem claim4_schedule_bounded_witness :
    1 ≤ 1 ∧ (generate_schedule 2 0 1 0 1).length ≤ 1 * 12 * 3 :=
  ⟨le_refl 1, claim4_schedule_bounded 2 0 1 0 1 (le_refl 1)⟩

/-- Witness for claim C5 at a concrete loan: principal `2`, rate `0`,
tenure `1` with yearly prepayment `1` from year `1` accumulates no more
interest and no more months than without prepayment. -/
theorem claim5_prepay_reduces_witness :
    (0 : ℚ) ≤ 0 ∧ (0 : ℚ) < 1 ∧
      (totalInterest (generate_schedule 2 0 1 1 1) ≤
          totalInterest (generate_schedule 2 0 1 0 1) ∧
        (generate_schedule 2 0 1 1 1).length ≤
          (generate_schedule 2 0 1 0 1).length) :=
  ⟨le_refl 0, by decide, claim5_prepay_reduces 2 0 1 1 1 (le_refl 0) (by decide)⟩

/-- Witness for claim C6 at a concrete loan: principal `1200`, rate `12`,
tenure `1` has a positive EMI whose yearly total exceeds the principal. -/
theorem claim6_emi_positive_witness :
    ((0 : ℚ) < 1200 ∧ (0 : ℚ) < 12 ∧ (12 : ℚ) ≤ 30 ∧ 1 ≤ 1 ∧ 1 ≤ 40) ∧
      (0 < calculate_emi 1200 12 1 ∧
        1200 < calculate_emi 1200 12 1 * (((1 : ℕ) : ℚ) * 12)) :=
  ⟨⟨by decide, by decide, by decide, le_refl 1, by decide⟩,
    claim6_emi_positive 1200 12 1 (by decide) (by decide) (by decide)
      (le_refl 1) (by decide)⟩

/-- Witness for claim C7 at a concrete loan: `calculate_emi 100 0 1` is
exactly `100 / 12`. -/
theorem claim7_zero_rate_emi_witness :
    (0 : ℚ) < 100 ∧ 1 ≤ 1 ∧
      calculate_emi 100 0 1 = 100 / (((1 : ℕ) : ℚ) * 12) :=
  ⟨by decide, le_refl 1, claim7_zero_rate_emi 100 1 (by decide) (le_refl 1)⟩

/-- Witness for claim C8 at a concrete loan: the schedule for principal
`2`, rate `0`, tenure `1` ends in the entry for month 6 with balance `1`,
and the dichotomy of `claim8_nonconvergence_detectable` holds for it. -/
theorem claim8_nonconvergence_detectable_witness :
    (generate_schedule 2 0 1 0 1).getLast? =
        some ⟨6, 1/6, 1/6, 0, 1⟩ ∧
      ((⟨6, 1/6, 1/6, 0, 1⟩ : ScheduleEntry).balanceAfter ≤ 1 ∨
        ((generate_schedule 2 0 1 0 1).length = 1 * 12 * 3 ∧
          1 < (⟨6, 1/6, 1/6, 0, 1⟩ : ScheduleEntry).balanceAfter)) :=
  ⟨by decide,
    claim8_nonconvergence_detectable 2 0 1 0 1 ⟨6, 1/6, 1/6, 0, 1⟩ (by decide)⟩

/-- Witness for claim C9 at a concrete loan: the first entry of the
schedule for principal `2`, rate `0`, tenure `1` has positive principal
and non-negative interest. -/
theorem claim9_entries_positive_witness :
    ((0 : ℚ) < 2 ∧ (0 : ℚ) ≤ 0 ∧ 1 ≤ 1) ∧
      ((⟨1, 1/6, 1/6, 0, 11/6⟩ : ScheduleEntry) ∈ generate_schedule 2 0 1 0 1 ∧
        (0 < (⟨1, 1/6, 1/6, 0, 11/6⟩ : ScheduleEntry).principalPaid ∧
          0 ≤ (⟨1, 1/6, 1/6, 0, 11/6⟩ : ScheduleEntry).interestPaid)) :=
  ⟨⟨by decide, le_refl 0, le_refl 1⟩,
    ⟨by decide,
      claim9_entries_positive 2 0 1 0 1 (by decide) (le_refl 0) (le_refl 1)
        (le_refl 0) ⟨1, 1/6, 1/6, 0, 11/6⟩ (by decide)⟩⟩

/-- Witness for claim C10 at a concrete loan: a principal of `1/2` (at
most the epsilon `1`) yields an empty schedule. -/
theorem claim10_small_principal_empty_witness :
    (1/2 : ℚ) ≤ 1 ∧ generate_schedule (1/2) 5 10 0 1 = [] :=
  ⟨by decide, claim10_small_principal_empty (1/2) 5 10 0 1 (by decide)⟩

end
